import Mathlib

/-!
Verification of the Time-on-Task statistical core
(`src/task-time-calculator.tsx`).

The development shallowly embeds the three computational functions of the
component:

* `parseTimeData` — line-oriented parsing of raw text into positive
  observations (source lines 10–34);
* `getTCritical` — the Student-t critical-value table with its
  degrees-of-freedom bucketing and fallback (source lines 49–70);
* `calculateCI` — the log-space confidence-interval estimator
  (source lines 73–123).

Modelling conventions:

* JavaScript numbers are abstracted as exact rationals (`ℚ`) on the
  parsing/table side and as real numbers (`ℝ`) on the analytic side;
  IEEE-754 rounding and overflow-to-infinity are below this abstraction.
  The non-finite values `NaN` and `±Infinity`, which `parseFloat` can
  produce as first-class results, are modelled explicitly by `JSNumber`.
* `parseFloat` is modelled from the ECMAScript definition it references:
  longest valid decimal-literal prefix (optionally signed, `Infinity`
  allowed, optional fraction and exponent), `NaN` when no prefix parses.
* String operations work on `List Char`; whitespace is the ASCII set.
* The `formatted` field produced by the source's `formatTime` is display
  formatting, outside the statistical contract, and is not modelled.
-/

set_option maxRecDepth 6000

namespace TaskTime

/-- ASCII whitespace, as removed by `String.prototype.trim` on the inputs
in scope. -/
def isWS (c : Char) : Bool :=
  c == ' ' || c == '\t' || c == '\n' || c == '\r' || c == '\x0b' || c == '\x0c'

/-- Decimal digit test. -/
def isDigitChar (c : Char) : Bool := '0' ≤ c && c ≤ '9'

/-- Numeric value of a digit character. -/
def digVal (c : Char) : ℕ := c.toNat - '0'.toNat

/-- Natural number denoted by a digit string (most significant first). -/
def natOfDigits (l : List Char) : ℕ := l.foldl (fun a c => 10 * a + digVal c) 0

/-- The exponent part of a decimal literal: if the input starts with
`e`/`E` followed by an optional sign and at least one digit, the factor
`10 ^ (±exponent)`; otherwise `1` (the exponent is not part of the
accepted prefix). -/
def expFactor (l : List Char) : ℚ :=
  match l with
  | c :: rest =>
    if c == 'e' || c == 'E' then
      match rest with
      | '+' :: rest2 =>
        let d := rest2.takeWhile isDigitChar
        if d = [] then 1 else (10 : ℚ) ^ natOfDigits d
      | '-' :: rest2 =>
        let d := rest2.takeWhile isDigitChar
        if d = [] then 1 else ((10 : ℚ) ^ natOfDigits d)⁻¹
      | _ =>
        let d := rest.takeWhile isDigitChar
        if d = [] then 1 else (10 : ℚ) ^ natOfDigits d
    else 1
  | [] => 1

/-- Value of the longest unsigned decimal-literal prefix
(`digits [. digits] [exponent]` or `. digits [exponent]`); `none` when the
input does not start with a digit or a point followed by a digit. -/
def parseUnsigned (l : List Char) : Option ℚ :=
  let intPart := l.takeWhile isDigitChar
  let rest := l.dropWhile isDigitChar
  match rest with
  | '.' :: rest2 =>
    let fracPart := rest2.takeWhile isDigitChar
    if intPart = [] ∧ fracPart = [] then none
    else
      let rest3 := rest2.dropWhile isDigitChar
      some (((natOfDigits intPart : ℚ) +
        (natOfDigits fracPart : ℚ) / (10 : ℚ) ^ fracPart.length) * expFactor rest3)
  | _ =>
    if intPart = [] then none
    else some ((natOfDigits intPart : ℚ) * expFactor rest)

/-- Result of `parseFloat`: `NaN`, a signed infinity, or a finite value. -/
inductive JSNumber where
  | nan : JSNumber
  | inf (negative : Bool) : JSNumber
  | num (q : ℚ) : JSNumber
deriving DecidableEq

/-- Whether the input starts with the literal `Infinity`. -/
def startsWithInfinity (l : List Char) : Bool :=
  match l with
  | 'I' :: 'n' :: 'f' :: 'i' :: 'n' :: 'i' :: 't' :: 'y' :: _ => true
  | _ => false

/-- Parse the part of a decimal literal after the optional sign. -/
def parseSigned (negative : Bool) (l : List Char) : JSNumber :=
  if startsWithInfinity l then JSNumber.inf negative
  else
    match parseUnsigned l with
    | none => JSNumber.nan
    | some q => JSNumber.num (if negative then -q else q)

/-- `parseFloat`, modelled from ECMAScript: skip whitespace, take the
longest `StrDecimalLiteral` prefix (sign, `Infinity` or digits with
optional fraction and exponent), `NaN` when there is none. -/
def parseFloatChars (l : List Char) : JSNumber :=
  match l.dropWhile isWS with
  | '+' :: rest => parseSigned false rest
  | '-' :: rest => parseSigned true rest
  | rest => parseSigned false rest

/-- `isNaN` on a parsed number. -/
def jsIsNaN : JSNumber → Bool
  | JSNumber.nan => true
  | _ => false

/-- The JavaScript comparison `value > 0` (false on `NaN`, true on
`Infinity`). -/
def jsGtZero : JSNumber → Bool
  | JSNumber.nan => false
  | JSNumber.inf negative => !negative
  | JSNumber.num q => decide (0 < q)

/-- `String.prototype.trim`: strip whitespace from both ends. -/
def trimChars (l : List Char) : List Char :=
  ((l.dropWhile isWS).reverse.dropWhile isWS).reverse

/-- `input.split('\n')`. -/
def splitLines : List Char → List (List Char)
  | [] => [[]]
  | c :: rest =>
    if c = '\n' then [] :: splitLines rest
    else
      match splitLines rest with
      | [] => [[c]]
      | h :: t => (c :: h) :: t

/-- One parsed observation: the numeric value and its 1-based source
line. -/
structure Observation where
  raw : JSNumber
  lineNumber : ℕ
deriving DecidableEq

/-- Body of the `forEach` loop of `parseTimeData` (source lines 19–31):
trim the line, and push an observation when the trimmed line is non-empty,
parses to a non-`NaN` value and that value compares `> 0`. -/
def parseStep (times : List Observation) (p : ℕ × List Char) : List Observation :=
  let trimmed := trimChars p.2
  if trimmed ≠ [] then
    let value := parseFloatChars trimmed
    if !jsIsNaN value && jsGtZero value then
      times ++ [{ raw := value, lineNumber := p.1 + 1 }]
    else times
  else times

/-- `parseTimeData` (source lines 10–34): empty result on all-whitespace
input, otherwise the fold of `parseStep` over the numbered lines. -/
def parseTimeData (input : String) : List Observation :=
  if trimChars input.data = [] then []
  else ((splitLines input.data).enum).foldl parseStep []

/-- Acceptance of one numbered line, phrased as the specification's
inclusion law (non-empty after trimming, parses to a non-`NaN` value,
value strictly positive), producing the observation it contributes. -/
def acceptLine (p : ℕ × List Char) : Option Observation :=
  let trimmed := trimChars p.2
  if trimmed ≠ [] ∧ (!jsIsNaN (parseFloatChars trimmed) && jsGtZero (parseFloatChars trimmed)) = true
  then some { raw := parseFloatChars trimmed, lineNumber := p.1 + 1 }
  else none

example : parseTimeData "122\n0\n-5\nabc\n50.5\n" =
    [{ raw := JSNumber.num 122, lineNumber := 1 },
     { raw := JSNumber.num (101 / 2), lineNumber := 5 }] := by with_unfolding_all decide

example : parseTimeData "Infinity" =
    [{ raw := JSNumber.inf false, lineNumber := 1 }] := by with_unfolding_all decide

example : parseTimeData "  \n \n" = [] := by with_unfolding_all decide

example : parseFloatChars "5 seconds".data = JSNumber.num 5 := by with_unfolding_all decide

example : parseFloatChars "1e-2".data = JSNumber.num (1 / 100) := by with_unfolding_all decide

/-- A push step appends exactly the observation the acceptance law
yields. -/
theorem parseStep_eq (times : List Observation) (p : ℕ × List Char) :
    parseStep times p = times ++ (acceptLine p).toList := by
  unfold parseStep acceptLine
  by_cases h1 : trimChars p.2 ≠ []
  · by_cases h2 : (!jsIsNaN (parseFloatChars (trimChars p.2)) &&
        jsGtZero (parseFloatChars (trimChars p.2))) = true
    · simp [h1, h2]
    · simp [h1, h2]
  · simp [h1]

/-- The source's `forEach`-and-push loop is the filter of the acceptance
law over the numbered lines. -/
theorem foldl_parseStep (l : List (ℕ × List Char)) (acc : List Observation) :
    l.foldl parseStep acc = acc ++ l.filterMap acceptLine := by
  induction l generalizing acc with
  | nil => simp
  | cons hd tl ih =>
    rw [List.foldl_cons, ih, parseStep_eq, List.filterMap_cons]
    cases h : acceptLine hd <;> simp [h]

/-- A list trims to nothing exactly when it is all whitespace. -/
theorem trimChars_eq_nil_iff (l : List Char) :
    trimChars l = [] ↔ ∀ c ∈ l, isWS c = true := by
  unfold trimChars
  rw [List.reverse_eq_nil_iff, List.dropWhile_eq_nil_iff]
  constructor
  · intro h c hc
    rw [← List.takeWhile_append_dropWhile isWS l] at hc
    rcases List.mem_append.mp hc with h1 | h1
    · exact List.mem_takeWhile_imp h1
    · exact h c (List.mem_reverse.mpr h1)
  · intro h c hc
    exact h c ((List.dropWhile_sublist isWS).subset (List.mem_reverse.mp hc))

/-- `split` never yields an empty list of lines. -/
theorem splitLines_ne_nil (l : List Char) : splitLines l ≠ [] := by
  induction l with
  | nil => simp [splitLines]
  | cons c rest ih =>
    rw [splitLines]
    by_cases hc : c = '\n'
    · simp [hc]
    · rw [if_neg hc]
      cases h : splitLines rest with
      | nil => simp
      | cons a t => simp

/-- Splitting an all-whitespace input produces all-whitespace lines
(the newline delimiters themselves are whitespace). -/
theorem splitLines_all_ws (l : List Char) (h : ∀ c ∈ l, isWS c = true) :
    ∀ s ∈ splitLines l, ∀ c ∈ s, isWS c = true := by
  induction l with
  | nil =>
    intro s hs
    simp only [splitLines, List.mem_singleton] at hs
    subst hs
    intro c hc
    cases hc
  | cons a rest ih =>
    have ha : isWS a = true := h a (List.mem_cons_self a rest)
    have hrest : ∀ c ∈ rest, isWS c = true :=
      fun c hc => h c (List.mem_cons_of_mem a hc)
    intro s hs
    rw [splitLines] at hs
    by_cases hc : a = '\n'
    · rw [if_pos hc] at hs
      rcases List.mem_cons.mp hs with h1 | h1
      · subst h1
        intro c hc2
        cases hc2
      · exact ih hrest s h1
    · rw [if_neg hc] at hs
      cases hsp : splitLines rest with
      | nil => exact absurd hsp (splitLines_ne_nil rest)
      | cons hd tl =>
        rw [hsp] at hs
        rcases List.mem_cons.mp hs with h1 | h1
        · subst h1
          intro c hc2
          rcases List.mem_cons.mp hc2 with h2 | h2
          · subst h2
            exact ha
          · refine ih hrest hd ?_ c h2
            rw [hsp]
            exact List.mem_cons_self hd tl
        · refine ih hrest s ?_
          rw [hsp]
          exact List.mem_cons_of_mem hd h1

/-- The payload of a numbered-list entry is an element of the list. -/
theorem snd_mem_of_mem_enumFrom {α : Type} (l : List α) (n : ℕ) (p : ℕ × α)
    (h : p ∈ l.enumFrom n) : p.2 ∈ l := by
  induction l generalizing n with
  | nil => cases h
  | cons a t ih =>
    rcases List.mem_cons.mp h with h1 | h1
    · rw [h1]
      exact List.mem_cons_self a t
    · exact List.mem_cons_of_mem a (ih (n + 1) h1)

/-- C2 (counterexample): the line `"Infinity"` is included in the sample
— `parseFloat` returns positive infinity, which passes the source's
`!isNaN(value) && value > 0` check — even though its parsed value is not
finite, so inclusion is not equivalent to parsing to a finite positive
value. -/
theorem parser_accepts_nonfinite_counterexample :
    parseTimeData "Infinity" =
        [{ raw := JSNumber.inf false, lineNumber := 1 }] ∧
      (∀ q : ℚ, JSNumber.inf false ≠ JSNumber.num q) :=
  ⟨by with_unfolding_all decide, fun _ h => JSNumber.noConfusion h⟩

/-- C2 (amended): a line is included in the sample iff it is non-empty
after trimming, parses to a non-`NaN` (possibly infinite) value, and that
value compares strictly greater than zero; the sample is exactly the
in-order filter of the numbered input lines by that law, each observation
carrying its 1-based line number — and the quoted example input yields
exactly `[122, 50.5]` from lines 1 and 5. -/
theorem parser_inclusion_characterization (input : String) :
    parseTimeData input = (splitLines input.data).enum.filterMap acceptLine ∧
      parseTimeData "122\n0\n-5\nabc\n50.5\n" =
        [{ raw := JSNumber.num 122, lineNumber := 1 },
         { raw := JSNumber.num (101 / 2), lineNumber := 5 }] := by
  constructor
  · unfold parseTimeData
    split_ifs with h
    · symm
      rw [List.filterMap_eq_nil_iff]
      intro p hp
      have hws := (trimChars_eq_nil_iff input.data).mp h
      have hline : p.2 ∈ splitLines input.data :=
        snd_mem_of_mem_enumFrom _ 0 p hp
      have hall := splitLines_all_ws input.data hws p.2 hline
      have ht : trimChars p.2 = [] := (trimChars_eq_nil_iff p.2).mpr hall
      unfold acceptLine
      simp [ht]
    · rw [foldl_parseStep]
      rfl
  · with_unfolding_all decide

/-- The `tValues` object of source lines 51–66: for each
degrees-of-freedom anchor, the two-tailed critical values for alpha 0.20,
0.10 and 0.05, in that order. -/
def tRows : List (ℕ × (ℚ × ℚ × ℚ)) :=
  [(1, (3.078, 6.314, 12.706)),
   (2, (1.886, 2.920, 4.303)),
   (3, (1.638, 2.353, 3.182)),
   (4, (1.533, 2.132, 2.776)),
   (5, (1.476, 2.015, 2.571)),
   (6, (1.440, 1.943, 2.447)),
   (7, (1.415, 1.895, 2.365)),
   (8, (1.397, 1.860, 2.306)),
   (9, (1.383, 1.833, 2.262)),
   (10, (1.372, 1.812, 2.228)),
   (15, (1.341, 1.753, 2.131)),
   (20, (1.325, 1.725, 2.086)),
   (25, (1.316, 1.708, 2.060)),
   (30, (1.310, 1.697, 2.042))]

/-- First-match association-list lookup, the analogue of a property read
on the `tValues` object (keys are distinct). -/
def lookupRow : List (ℕ × (ℚ × ℚ × ℚ)) → ℕ → Option (ℚ × ℚ × ℚ)
  | [], _ => none
  | r :: rest, k => if r.1 = k then some r.2 else lookupRow rest k

/-- `tValues[df_key]`: the row for an anchor key, `none` for a key outside
the anchor set. -/
def tRow (k : ℕ) : Option (ℚ × ℚ × ℚ) := lookupRow tRows k

/-- The degrees-of-freedom bucketing expression of source line 68. -/
def dfKeyOf (df : ℕ) : ℕ :=
  if df ≤ 30 then
    (if df ≤ 10 then df
     else if df ≤ 15 then 15
     else if df ≤ 20 then 20
     else if df ≤ 25 then 25
     else 30)
  else 30

/-- `tValues[df_key][alpha]` as a partial lookup: `none` when the key or
the alpha column is absent. -/
def tLookup (k : ℕ) (alpha : ℚ) : Option ℚ :=
  (tRow k).bind (fun r =>
    if alpha = (0.20 : ℚ) then some r.1
    else if alpha = (0.10 : ℚ) then some r.2.1
    else if alpha = (0.05 : ℚ) then some r.2.2
    else none)

/-- `getTCritical` (source lines 49–70): derive alpha from the confidence
level, bucket the degrees of freedom, look the pair up, and fall back to
`2.042` when the lookup yields nothing.  (In the source the fallback is the
`|| 2.042` truthiness guard; every stored value is nonzero, so truthiness
coincides with presence.) -/
def getTCritical (df : ℕ) (confidenceLevel : ℚ) : ℚ :=
  let alpha := (100 - confidenceLevel) / 100
  (tLookup (dfKeyOf df) alpha).getD 2.042

example : getTCritical 4 95 = 2.776 := by
  norm_num [getTCritical, tLookup, dfKeyOf, tRow, tRows, lookupRow]
example : getTCritical 5 99 = 2.042 := by
  norm_num [getTCritical, tLookup, dfKeyOf, tRow, tRows, lookupRow]
example : ¬ getTCritical 5 80 = 2.015 := by
  norm_num [getTCritical, tLookup, dfKeyOf, tRow, tRows, lookupRow]
example : getTCritical 5 80 = 1.476 := by
  norm_num [getTCritical, tLookup, dfKeyOf, tRow, tRows, lookupRow]

/-- The multiset of values stored in a row list. -/
def rowValues (l : List (ℕ × (ℚ × ℚ × ℚ))) : List ℚ :=
  l.foldr (fun r acc => r.2.1 :: r.2.2.1 :: r.2.2.2 :: acc) []

/-- The 42 values of the table together with the fallback `2.042` (which
is also the entry for key 30 at alpha 0.05). -/
def tTableValues : List ℚ := rowValues tRows ++ [2.042]

/-- A successful row lookup comes from an entry of the list. -/
theorem lookupRow_exists (l : List (ℕ × (ℚ × ℚ × ℚ))) (k : ℕ)
    (r : ℚ × ℚ × ℚ) (h : lookupRow l k = some r) : ∃ p ∈ l, p.2 = r := by
  induction l with
  | nil => simp [lookupRow] at h
  | cons hd tl ih =>
    rw [lookupRow] at h
    split at h
    · exact ⟨hd, List.mem_cons_self hd tl, by injection h⟩
    · rcases ih h with ⟨p, hp, hv⟩
      exact ⟨p, List.mem_cons_of_mem hd hp, hv⟩

/-- The components of any entry of a row list occur in its values. -/
theorem mem_rowValues (l : List (ℕ × (ℚ × ℚ × ℚ))) (p : ℕ × (ℚ × ℚ × ℚ))
    (hp : p ∈ l) :
    p.2.1 ∈ rowValues l ∧ p.2.2.1 ∈ rowValues l ∧ p.2.2.2 ∈ rowValues l := by
  induction l with
  | nil => cases hp
  | cons hd tl ih =>
    rcases List.mem_cons.mp hp with h | h
    · subst h
      refine ⟨?_, ?_, ?_⟩ <;> simp [rowValues]
    · rcases ih h with ⟨h1, h2, h3⟩
      simp only [rowValues] at h1 h2 h3
      refine ⟨?_, ?_, ?_⟩ <;> simp [rowValues] <;> tauto

/-- The numeric facts about the stored rows: every value is positive and
each row lists its three values in increasing order (a lower confidence
level has a smaller critical value). -/
theorem tRows_numeric : ∀ r ∈ tRows,
    (0 < r.2.1 ∧ 0 < r.2.2.1 ∧ 0 < r.2.2.2) ∧
      (r.2.1 ≤ r.2.2.1 ∧ r.2.2.1 ≤ r.2.2.2) := by
  with_unfolding_all decide

/-- Every stored row consists of values from `tTableValues`, listed in
increasing order and positive. -/
theorem tRow_entries (k : ℕ) (a b c : ℚ) (h : tRow k = some (a, b, c)) :
    (0 < a ∧ 0 < b ∧ 0 < c) ∧ (a ≤ b ∧ b ≤ c) ∧
      (a ∈ tTableValues ∧ b ∈ tTableValues ∧ c ∈ tTableValues) := by
  rcases lookupRow_exists tRows k (a, b, c) h with ⟨p, hp, hv⟩
  have hnum := tRows_numeric p hp
  have hmem := mem_rowValues tRows p hp
  rw [hv] at hnum hmem
  refine ⟨hnum.1, hnum.2, ?_, ?_, ?_⟩ <;>
    exact List.mem_append_left _ (by tauto)

/-- The degrees-of-freedom anchors of the table. -/
def anchorKeys : List ℕ := [1, 2, 3, 4, 5, 6, 7, 8, 9, 10, 15, 20, 25, 30]

/-- Every anchor key has a row. -/
theorem anchors_have_rows : ∀ k ∈ anchorKeys, (tRow k).isSome := by
  with_unfolding_all decide

/-- For at least one degree of freedom, the bucketing lands on an anchor
key, so the object read `tValues[df_key]` is never `undefined`. -/
theorem dfKeyOf_mem_anchors (df : ℕ) (h : 1 ≤ df) : dfKeyOf df ∈ anchorKeys := by
  unfold dfKeyOf
  split_ifs <;> first
    | decide
    | (interval_cases df <;> decide)

/-- Reading `getTCritical` at the three supported confidence levels
returns the respective column of the bucketed row. -/
theorem getTCritical_eval (df : ℕ) (r : ℚ × ℚ × ℚ)
    (h : tRow (dfKeyOf df) = some r) :
    getTCritical df 80 = r.1 ∧ getTCritical df 90 = r.2.1 ∧
      getTCritical df 95 = r.2.2 := by
  refine ⟨?_, ?_, ?_⟩ <;> simp only [getTCritical, tLookup, h, Option.some_bind] <;> norm_num

/-- For a confidence level outside `{95, 90, 80}` the alpha column is
absent and the lookup yields the fallback. -/
theorem getTCritical_fallback_of_unknown (df : ℕ) (cl : ℚ)
    (hcl : cl ∉ ({95, 90, 80} : Set ℚ)) : getTCritical df cl = 2.042 := by
  simp only [Set.mem_insert_iff, Set.mem_singleton_iff, not_or] at hcl
  obtain ⟨h95, h90, h80⟩ := hcl
  have c1 : ¬ (100 - cl) / 100 = (0.20 : ℚ) := by
    intro hc; apply h80; field_simp at hc; linarith
  have c2 : ¬ (100 - cl) / 100 = (0.10 : ℚ) := by
    intro hc; apply h90; field_simp at hc; linarith
  have c3 : ¬ (100 - cl) / 100 = (0.05 : ℚ) := by
    intro hc; apply h95; field_simp at hc; linarith
  simp only [getTCritical, tLookup]
  cases htr : tRow (dfKeyOf df) with
  | none => rfl
  | some r =>
    simp only [Option.some_bind]
    rw [if_neg c1, if_neg c2, if_neg c3]
    rfl

/-- `getTCritical` only ever returns stored values or the fallback, and
all of those are positive. -/
theorem getTCritical_pos_mem (df : ℕ) (cl : ℚ) :
    0 < getTCritical df cl ∧ getTCritical df cl ∈ tTableValues := by
  have hfb : (0 : ℚ) < 2.042 ∧ (2.042 : ℚ) ∈ tTableValues :=
    ⟨by norm_num, List.mem_append_right _ (List.mem_singleton.mpr rfl)⟩
  simp only [getTCritical, tLookup]
  cases htr : tRow (dfKeyOf df) with
  | none => exact hfb
  | some r =>
    obtain ⟨ra, rb, rc⟩ := r
    have he := tRow_entries (dfKeyOf df) ra rb rc htr
    simp only [Option.some_bind]
    split_ifs <;> simp only [Option.getD_some, Option.getD_none] <;>
      first
        | exact ⟨he.1.1, he.2.2.1⟩
        | exact ⟨he.1.2.1, he.2.2.2.1⟩
        | exact ⟨he.1.2.2, he.2.2.2.2⟩
        | exact hfb

/-- The output record of the estimator, with the source's field names
(`sem`, `df` and `margin` are the spec's `standardErrorOfLogMean`,
`degreesOfFreedom` and `marginInLogSpace`). -/
structure EstimationResult where
  n : ℕ
  geometricMean : ℝ
  arithmeticMean : ℝ
  logMean : ℝ
  logSD : ℝ
  sem : ℝ
  df : ℕ
  tCritical : ℝ
  margin : ℝ
  ciLow : ℝ
  ciHigh : ℝ
  confidenceLevel : ℚ

/-- The record built by `calculateCI` when the sample is large enough
(source lines 76–122, straight-line part).  `Math.log`, `Math.sqrt`,
`Math.exp` are the real functions; sums written with `reduce` in the
source are list sums (addition on the reals is associative and
commutative, and IEEE-754 evaluation order is below this abstraction). -/
noncomputable def resultOf (times : List ℝ) (confidenceLevel : ℚ) : EstimationResult :=
  let n : ℕ := times.length
  let logTimes : List ℝ := times.map Real.log
  let logMean : ℝ := logTimes.sum / (n : ℝ)
  let logVariance : ℝ := (logTimes.map (fun val => (val - logMean) ^ 2)).sum / ((n : ℝ) - 1)
  let logSD : ℝ := Real.sqrt logVariance
  let sem : ℝ := logSD / Real.sqrt (n : ℝ)
  let df : ℕ := n - 1
  let tCritical : ℝ := ((getTCritical df confidenceLevel : ℚ) : ℝ)
  let margin : ℝ := tCritical * sem
  let logLow : ℝ := logMean - margin
  let logHigh : ℝ := logMean + margin
  { n := n
    geometricMean := Real.exp logMean
    arithmeticMean := times.sum / (n : ℝ)
    logMean := logMean
    logSD := logSD
    sem := sem
    df := df
    tCritical := tCritical
    margin := margin
    ciLow := Real.exp logLow
    ciHigh := Real.exp logHigh
    confidenceLevel := confidenceLevel }

/-- `calculateCI` (source lines 73–123): `null` for fewer than two
observations, otherwise the populated record. -/
noncomputable def calculateCI (times : List ℝ) (confidenceLevel : ℚ) :
    Option EstimationResult :=
  if times.length < 2 then none else some (resultOf times confidenceLevel)

/-- Transcribed from the spec, §4.3 step 2: mean of the log-transformed
values. -/
noncomputable def specLogMean (xs : List ℝ) : ℝ :=
  (xs.map Real.log).sum / (xs.length : ℝ)

/-- Transcribed from the spec, §4.3 step 3: Bessel-corrected sample
variance of the log-transformed values. -/
noncomputable def specLogVariance (xs : List ℝ) : ℝ :=
  ((xs.map Real.log).map (fun v => (v - specLogMean xs) ^ 2)).sum / ((xs.length : ℝ) - 1)

/-- Transcribed from the spec, §4.3 step 4. -/
noncomputable def specLogSD (xs : List ℝ) : ℝ := Real.sqrt (specLogVariance xs)

/-- Transcribed from the spec, §4.3 step 5: standard error of the log
mean. -/
noncomputable def specSEM (xs : List ℝ) : ℝ :=
  specLogSD xs / Real.sqrt (xs.length : ℝ)

/-- Transcribed from the spec, §4.3 step 8: margin in log space. -/
noncomputable def specMargin (xs : List ℝ) (cl : ℚ) : ℝ :=
  ((getTCritical (xs.length - 1) cl : ℚ) : ℝ) * specSEM xs

/-- Transcribed from the spec, §4.3 step 11: arithmetic mean of the raw
values. -/
noncomputable def specArithMean (xs : List ℝ) : ℝ := xs.sum / (xs.length : ℝ)

theorem calculateCI_eq (times : List ℝ) (cl : ℚ) (h : 2 ≤ times.length) :
    calculateCI times cl = some (resultOf times cl) := by
  unfold calculateCI
  rw [if_neg (by omega)]

theorem resultOf_logMean (times : List ℝ) (cl : ℚ) :
    (resultOf times cl).logMean = specLogMean times := rfl

theorem resultOf_logSD (times : List ℝ) (cl : ℚ) :
    (resultOf times cl).logSD = specLogSD times := rfl

theorem resultOf_sem (times : List ℝ) (cl : ℚ) :
    (resultOf times cl).sem = specSEM times := rfl

theorem resultOf_margin (times : List ℝ) (cl : ℚ) :
    (resultOf times cl).margin = specMargin times cl := rfl

theorem resultOf_geometricMean (times : List ℝ) (cl : ℚ) :
    (resultOf times cl).geometricMean = Real.exp (specLogMean times) := rfl

theorem resultOf_ciLow (times : List ℝ) (cl : ℚ) :
    (resultOf times cl).ciLow =
      Real.exp (specLogMean times - specMargin times cl) := rfl

theorem resultOf_ciHigh (times : List ℝ) (cl : ℚ) :
    (resultOf times cl).ciHigh =
      Real.exp (specLogMean times + specMargin times cl) := rfl

theorem resultOf_arithmeticMean (times : List ℝ) (cl : ℚ) :
    (resultOf times cl).arithmeticMean = specArithMean times := rfl

/-- The standard error is non-negative (a quotient of square roots). -/
theorem specSEM_nonneg (xs : List ℝ) : 0 ≤ specSEM xs :=
  div_nonneg (Real.sqrt_nonneg _) (Real.sqrt_nonneg _)

/-- The margin is non-negative: positive critical value times
non-negative standard error. -/
theorem specMargin_nonneg (xs : List ℝ) (cl : ℚ) : 0 ≤ specMargin xs cl := by
  unfold specMargin
  have ht := (getTCritical_pos_mem (xs.length - 1) cl).1
  have : (0 : ℝ) < ((getTCritical (xs.length - 1) cl : ℚ) : ℝ) := by
    exact_mod_cast ht
  exact mul_nonneg this.le (specSEM_nonneg xs)

/-- A list sum as a sum over positions. -/
theorem sum_fin (l : List ℝ) : l.sum = ∑ i : Fin l.length, l.get i := by
  induction l with
  | nil => simp
  | cons a t ih =>
    simp only [List.sum_cons, List.length_cons, Fin.sum_univ_succ,
      List.get_cons_zero, List.get_cons_succ', ih]

/-- A mapped list sum as a sum over positions. -/
theorem map_sum_fin (f : ℝ → ℝ) (l : List ℝ) :
    (l.map f).sum = ∑ i : Fin l.length, f (l.get i) := by
  induction l with
  | nil => simp
  | cons a t ih =>
    simp only [List.map_cons, List.sum_cons, List.length_cons,
      Fin.sum_univ_succ, List.get_cons_zero, List.get_cons_succ', ih]

/-- AM–GM for the estimator's two means: the exponentiated log mean is at
most the arithmetic mean, with equality exactly when all sample values
coincide.  The inequality is Jensen's inequality for the (strictly)
convex exponential applied to the log-transformed values. -/
theorem geom_le_arith (times : List ℝ) (h2 : 2 ≤ times.length)
    (hpos : ∀ x ∈ times, 0 < x) :
    Real.exp (specLogMean times) ≤ specArithMean times ∧
      (Real.exp (specLogMean times) = specArithMean times ↔
        ∀ x ∈ times, ∀ y ∈ times, x = y) := by
  have hn0 : (0 : ℝ) < (times.length : ℝ) := by
    have : 0 < times.length := by omega
    exact_mod_cast this
  have hnne : (times.length : ℝ) ≠ 0 := ne_of_gt hn0
  have hwpos : ∀ i ∈ (Finset.univ : Finset (Fin times.length)),
      (0 : ℝ) < ((times.length : ℝ))⁻¹ := fun _ _ => inv_pos.mpr hn0
  have hwsum : ∑ _i : Fin times.length, ((times.length : ℝ))⁻¹ = 1 := by
    rw [Finset.sum_const, Finset.card_univ, Fintype.card_fin, nsmul_eq_mul,
      mul_inv_cancel₀ hnne]
  have hmem : ∀ i ∈ (Finset.univ : Finset (Fin times.length)),
      Real.log (times.get i) ∈ (Set.univ : Set ℝ) := fun _ _ => Set.mem_univ _
  have hget : ∀ i : Fin times.length, times.get i ∈ times :=
    fun i => times.get_mem i.1 i.2
  have hlogmean : specLogMean times =
      ∑ i : Fin times.length, ((times.length : ℝ))⁻¹ • Real.log (times.get i) := by
    unfold specLogMean
    rw [map_sum_fin Real.log times, ← Finset.smul_sum, smul_eq_mul,
      div_eq_inv_mul]
  have harith : specArithMean times =
      ∑ i : Fin times.length, ((times.length : ℝ))⁻¹ •
        Real.exp (Real.log (times.get i)) := by
    unfold specArithMean
    have hrw : ∀ i : Fin times.length,
        Real.exp (Real.log (times.get i)) = times.get i :=
      fun i => Real.exp_log (hpos _ (hget i))
    simp only [hrw]
    rw [sum_fin times, ← Finset.smul_sum, smul_eq_mul, div_eq_inv_mul]
  have hle : Real.exp (specLogMean times) ≤ specArithMean times := by
    rw [hlogmean, harith]
    exact convexOn_exp.map_sum_le (fun i hi => (hwpos i hi).le) hwsum hmem
  refine ⟨hle, ?_, ?_⟩
  · intro heq
    by_contra hne
    push_neg at hne
    obtain ⟨x, hx, y, hy, hxy⟩ := hne
    obtain ⟨i, hi⟩ := List.mem_iff_get.mp hx
    obtain ⟨j, hj⟩ := List.mem_iff_get.mp hy
    have hij : Real.log (times.get i) ≠ Real.log (times.get j) := by
      intro hl
      apply hxy
      have hexp : Real.exp (Real.log (times.get i)) =
          Real.exp (Real.log (times.get j)) := by rw [hl]
      rw [Real.exp_log (hpos _ (hget i)), Real.exp_log (hpos _ (hget j))] at hexp
      rw [← hi, ← hj]
      exact hexp
    have hlt := strictConvexOn_exp.map_sum_lt hwpos hwsum hmem
      ⟨i, Finset.mem_univ i, j, Finset.mem_univ j, hij⟩
    rw [← hlogmean, ← harith] at hlt
    exact absurd heq (ne_of_lt hlt)
  · intro hall
    have hne2 : times ≠ [] := by
      intro h0
      rw [h0] at h2
      simp at h2
    obtain ⟨c, hc⟩ : ∃ c, c ∈ times := List.exists_mem_of_ne_nil times hne2
    have hxc : ∀ x ∈ times, x = c := fun x hx => hall x hx c hc
    have hsum : times.sum = times.length • c := List.sum_eq_card_nsmul times c hxc
    have hlog : (times.map Real.log).sum = times.length • Real.log c := by
      have hmaps : ∀ v ∈ times.map Real.log, v = Real.log c := by
        intro v hv
        obtain ⟨x, hx, hvx⟩ := List.mem_map.mp hv
        rw [← hvx, hxc x hx]
      simpa [List.length_map] using
        List.sum_eq_card_nsmul (times.map Real.log) (Real.log c) hmaps
    have hgm : specLogMean times = Real.log c := by
      unfold specLogMean
      rw [hlog, nsmul_eq_mul, mul_div_cancel_left₀ _ hnne]
    have ham : specArithMean times = c := by
      unfold specArithMean
      rw [hsum, nsmul_eq_mul, mul_div_cancel_left₀ _ hnne]
    rw [hgm, ham, Real.exp_log (hpos c hc)]

/-- A produced result comes from a sample of at least two observations
and is the straight-line record. -/
theorem calculateCI_some_inv (times : List ℝ) (cl : ℚ) (r : EstimationResult)
    (hr : calculateCI times cl = some r) :
    2 ≤ times.length ∧ r = resultOf times cl := by
  unfold calculateCI at hr
  split_ifs at hr with h
  cases hr
  exact ⟨by omega, rfl⟩

/-- C1: for a sample of at least two strictly positive values and a
supported confidence level, the estimator returns a record whose every
field is the corresponding formula of the specification (log mean,
Bessel-corrected log variance under the square root, standard error,
degrees of freedom `n - 1`, tabled critical value, margin, exponentiated
point estimate and interval ends, raw arithmetic mean, plus `n` and the
confidence level). -/
theorem estimator_computes_spec_formulas (times : List ℝ) (cl : ℚ)
    (h2 : 2 ≤ times.length) (_hpos : ∀ x ∈ times, 0 < x)
    (_hcl : cl ∈ ({95, 90, 80} : Set ℚ)) :
    ∃ r, calculateCI times cl = some r ∧
      r.n = times.length ∧
      r.logMean = specLogMean times ∧
      r.logSD = Real.sqrt (specLogVariance times) ∧
      r.sem = specLogSD times / Real.sqrt (times.length : ℝ) ∧
      r.df = times.length - 1 ∧
      r.tCritical = ((getTCritical (times.length - 1) cl : ℚ) : ℝ) ∧
      r.margin = r.tCritical * r.sem ∧
      r.geometricMean = Real.exp (specLogMean times) ∧
      r.ciLow = Real.exp (specLogMean times - specMargin times cl) ∧
      r.ciHigh = Real.exp (specLogMean times + specMargin times cl) ∧
      r.arithmeticMean = specArithMean times ∧
      r.confidenceLevel = cl :=
  ⟨resultOf times cl, calculateCI_eq times cl h2, rfl, rfl, rfl, rfl, rfl,
    rfl, rfl, rfl, rfl, rfl, rfl, rfl⟩

theorem estimator_computes_spec_formulas_witness :
    ∃ r, calculateCI [(122 : ℝ), 293] 95 = some r ∧ r.n = 2 := by
  obtain ⟨r, hr, hn, _⟩ :=
    estimator_computes_spec_formulas [(122 : ℝ), 293] 95 (by norm_num)
      (by norm_num) (by simp)
  exact ⟨r, hr, by simpa using hn⟩

/-- C3: the degrees-of-freedom bucketing follows the documented bands,
and the four quoted critical values at confidence level 95 come out of
the table accordingly. -/
theorem df_bucketing_bands_and_values (df : ℕ) :
    (df ≤ 10 → dfKeyOf df = df) ∧
    (10 < df → df ≤ 15 → dfKeyOf df = 15) ∧
    (15 < df → df ≤ 20 → dfKeyOf df = 20) ∧
    (20 < df → df ≤ 25 → dfKeyOf df = 25) ∧
    (25 < df → dfKeyOf df = 30) ∧
    getTCritical 10 95 = 2.228 ∧ getTCritical 11 95 = 2.131 ∧
    getTCritical 30 95 = 2.042 ∧ getTCritical 50 95 = 2.042 := by
  refine ⟨?_, ?_, ?_, ?_, ?_, ?_, ?_, ?_, ?_⟩
  · intro h; unfold dfKeyOf; split_ifs <;> omega
  · intro h1 h2; unfold dfKeyOf; split_ifs <;> omega
  · intro h1 h2; unfold dfKeyOf; split_ifs <;> omega
  · intro h1 h2; unfold dfKeyOf; split_ifs <;> omega
  · intro h1; unfold dfKeyOf; split_ifs <;> omega
  · norm_num [getTCritical, tLookup, dfKeyOf, tRow, tRows, lookupRow]
  · norm_num [getTCritical, tLookup, dfKeyOf, tRow, tRows, lookupRow]
  · norm_num [getTCritical, tLookup, dfKeyOf, tRow, tRows, lookupRow]
  · norm_num [getTCritical, tLookup, dfKeyOf, tRow, tRows, lookupRow]

theorem df_bucketing_bands_and_values_witness :
    dfKeyOf 12 = 15 ∧ getTCritical 10 95 = 2.228 := by
  have h := df_bucketing_bands_and_values 12
  exact ⟨h.2.1 (by norm_num) (by norm_num), h.2.2.2.2.2.1⟩

/-- C4: the estimator yields no result exactly when the sample has fewer
than two observations; with two or more it yields a (fully populated)
record. -/
theorem estimate_undefined_iff_small_sample (times : List ℝ) (cl : ℚ) :
    calculateCI times cl = none ↔ times.length < 2 := by
  unfold calculateCI
  split_ifs with h
  · simp [h]
  · simp [h]

/-- C5: the bucketed key always has a row (no failing object read for
`df >= 1`); an absent `(df_key, alpha)` combination — in particular any
confidence level outside `{95, 90, 80}` — produces the fallback `2.042`,
which is the stored entry for key 30 at alpha 0.05. -/
theorem tCritical_total_with_fallback (df : ℕ) (hdf : 1 ≤ df) (cl : ℚ) :
    (tRow (dfKeyOf df)).isSome = true ∧
    (tLookup (dfKeyOf df) ((100 - cl) / 100) = none →
      getTCritical df cl = 2.042) ∧
    (cl ∉ ({95, 90, 80} : Set ℚ) → getTCritical df cl = 2.042) ∧
    tLookup 30 (0.05 : ℚ) = some 2.042 := by
  refine ⟨anchors_have_rows _ (dfKeyOf_mem_anchors df hdf), ?_,
    getTCritical_fallback_of_unknown df cl, ?_⟩
  · intro h
    simp only [getTCritical]
    rw [h]
    rfl
  · norm_num [tLookup, tRow, tRows, lookupRow]

theorem tCritical_total_with_fallback_witness : getTCritical 5 99 = 2.042 :=
  (tCritical_total_with_fallback 5 (by norm_num) 99).2.2.1
    (by norm_num [Set.mem_insert_iff, Set.mem_singleton_iff])

/-- C6: whenever a result is produced, the interval brackets the
geometric mean. -/
theorem ci_contains_geometric_mean (times : List ℝ) (cl : ℚ)
    (r : EstimationResult) (hr : calculateCI times cl = some r) :
    r.ciLow ≤ r.geometricMean ∧ r.geometricMean ≤ r.ciHigh := by
  obtain ⟨h2, rfl⟩ := calculateCI_some_inv times cl r hr
  rw [resultOf_ciLow, resultOf_ciHigh, resultOf_geometricMean]
  have hm := specMargin_nonneg times cl
  constructor <;> rw [Real.exp_le_exp] <;> linarith

theorem ci_contains_geometric_mean_witness :
    (resultOf [(1 : ℝ), 2] 95).ciLow ≤ (resultOf [(1 : ℝ), 2] 95).geometricMean ∧
      (resultOf [(1 : ℝ), 2] 95).geometricMean ≤ (resultOf [(1 : ℝ), 2] 95).ciHigh :=
  ci_contains_geometric_mean [1, 2] 95 _ (calculateCI_eq [1, 2] 95 (by norm_num))

/-- C9: the estimator is a pure function of the sample values and the
confidence level — equal inputs give equal results (the embedding has no
state to mutate, matching the source's use of non-mutating `map`/`reduce`
only). -/
theorem estimate_deterministic (t1 t2 : List ℝ) (c1 c2 : ℚ)
    (ht : t1 = t2) (hc : c1 = c2) : calculateCI t1 c1 = calculateCI t2 c2 := by
  rw [ht, hc]

theorem estimate_deterministic_witness :
    calculateCI [(1 : ℝ), 2] 95 = calculateCI [(1 : ℝ), 2] 95 :=
  estimate_deterministic [1, 2] [1, 2] 95 95 rfl rfl

/-- C10: for any degrees of freedom at least 1 and any rational
confidence level whatsoever, the critical value is positive and one of
the table's stored values or the fallback; consequently the margin of any
produced result is non-negative. -/
theorem tCritical_positive_and_margin_nonneg (df : ℕ) (_hdf : 1 ≤ df)
    (cl : ℚ) (times : List ℝ) (r : EstimationResult)
    (hr : calculateCI times cl = some r) :
    0 < getTCritical df cl ∧ getTCritical df cl ∈ tTableValues ∧
      0 ≤ r.margin := by
  have h := getTCritical_pos_mem df cl
  obtain ⟨h2, rfl⟩ := calculateCI_some_inv times cl r hr
  refine ⟨h.1, h.2, ?_⟩
  rw [resultOf_margin]
  exact specMargin_nonneg times cl

/-- Within each row, a higher confidence level (smaller alpha) never has
a smaller critical value. -/
theorem getTCritical_level_mono (df : ℕ) :
    getTCritical df 80 ≤ getTCritical df 90 ∧
      getTCritical df 90 ≤ getTCritical df 95 := by
  cases htr : tRow (dfKeyOf df) with
  | none =>
    have hconst : ∀ cl : ℚ, getTCritical df cl = 2.042 := by
      intro cl
      simp only [getTCritical, tLookup, htr, Option.none_bind, Option.getD_none]
    rw [hconst 80, hconst 90, hconst 95]
    exact ⟨le_refl _, le_refl _⟩
  | some r =>
    obtain ⟨p, hp, hv⟩ := lookupRow_exists tRows (dfKeyOf df) r htr
    have hn := (tRows_numeric p hp).2
    rw [hv] at hn
    obtain ⟨e1, e2, e3⟩ := getTCritical_eval df r htr
    rw [e1, e2, e3]
    exact hn

/-- C7: for a sample of at least two strictly positive values, the
result's geometric mean is at most its arithmetic mean, with equality
exactly when all values in the sample are identical. -/
theorem am_gm_on_result (times : List ℝ) (cl : ℚ) (h2 : 2 ≤ times.length)
    (hpos : ∀ x ∈ times, 0 < x) (r : EstimationResult)
    (hr : calculateCI times cl = some r) :
    r.geometricMean ≤ r.arithmeticMean ∧
      (r.geometricMean = r.arithmeticMean ↔
        ∀ x ∈ times, ∀ y ∈ times, x = y) := by
  obtain ⟨-, rfl⟩ := calculateCI_some_inv times cl r hr
  rw [resultOf_geometricMean, resultOf_arithmeticMean]
  exact geom_le_arith times h2 hpos

theorem am_gm_on_result_witness :
    (resultOf [(2 : ℝ), 2] 95).geometricMean ≤
        (resultOf [(2 : ℝ), 2] 95).arithmeticMean ∧
      (resultOf [(2 : ℝ), 2] 95).geometricMean =
        (resultOf [(2 : ℝ), 2] 95).arithmeticMean :=
  have h := am_gm_on_result [2, 2] 95 (by norm_num) (by norm_num) _
    (calculateCI_eq [2, 2] 95 (by norm_num))
  ⟨h.1, h.2.mpr (by norm_num)⟩

/-- C8: for a fixed sample, the produced interval width is non-decreasing
as the confidence level increases through 80, 90, 95. -/
theorem ci_width_monotone_in_level (times : List ℝ) (_h2 : 2 ≤ times.length)
    (r80 r90 r95 : EstimationResult)
    (h80 : calculateCI times 80 = some r80)
    (h90 : calculateCI times 90 = some r90)
    (h95 : calculateCI times 95 = some r95) :
    r80.ciHigh - r80.ciLow ≤ r90.ciHigh - r90.ciLow ∧
      r90.ciHigh - r90.ciLow ≤ r95.ciHigh - r95.ciLow := by
  obtain ⟨-, rfl⟩ := calculateCI_some_inv _ _ _ h80
  obtain ⟨-, rfl⟩ := calculateCI_some_inv _ _ _ h90
  obtain ⟨-, rfl⟩ := calculateCI_some_inv _ _ _ h95
  have hsem := specSEM_nonneg times
  have hmono := getTCritical_level_mono (times.length - 1)
  have hm1 : specMargin times 80 ≤ specMargin times 90 := by
    unfold specMargin
    exact mul_le_mul_of_nonneg_right (by exact_mod_cast hmono.1) hsem
  have hm2 : specMargin times 90 ≤ specMargin times 95 := by
    unfold specMargin
    exact mul_le_mul_of_nonneg_right (by exact_mod_cast hmono.2) hsem
  simp only [resultOf_ciLow, resultOf_ciHigh]
  have e1 : Real.exp (specLogMean times + specMargin times 80) ≤
      Real.exp (specLogMean times + specMargin times 90) := by
    rw [Real.exp_le_exp]; linarith
  have e2 : Real.exp (specLogMean times - specMargin times 90) ≤
      Real.exp (specLogMean times - specMargin times 80) := by
    rw [Real.exp_le_exp]; linarith
  have e3 : Real.exp (specLogMean times + specMargin times 90) ≤
      Real.exp (specLogMean times + specMargin times 95) := by
    rw [Real.exp_le_exp]; linarith
  have e4 : Real.exp (specLogMean times - specMargin times 95) ≤
      Real.exp (specLogMean times - specMargin times 90) := by
    rw [Real.exp_le_exp]; linarith
  constructor <;> linarith

theorem ci_width_monotone_in_level_witness :
    (resultOf [(1 : ℝ), 2] 80).ciHigh - (resultOf [(1 : ℝ), 2] 80).ciLow ≤
        (resultOf [(1 : ℝ), 2] 90).ciHigh - (resultOf [(1 : ℝ), 2] 90).ciLow ∧
      (resultOf [(1 : ℝ), 2] 90).ciHigh - (resultOf [(1 : ℝ), 2] 90).ciLow ≤
        (resultOf [(1 : ℝ), 2] 95).ciHigh - (resultOf [(1 : ℝ), 2] 95).ciLow :=
  ci_width_monotone_in_level [1, 2] (by norm_num) _ _ _
    (calculateCI_eq [1, 2] 80 (by norm_num))
    (calculateCI_eq [1, 2] 90 (by norm_num))
    (calculateCI_eq [1, 2] 95 (by norm_num))

theorem tCritical_positive_and_margin_nonneg_witness :
    0 < getTCritical 5 95 ∧ getTCritical 5 95 ∈ tTableValues ∧
      0 ≤ (resultOf [(1 : ℝ), 2] 95).margin :=
  tCritical_positive_and_margin_nonneg 5 (by norm_num) 95 [1, 2] _
    (calculateCI_eq [1, 2] 95 (by norm_num))

end TaskTime
